import Mathlib

/-!
Shallow embedding of `populate_db_atlas/main.py`: a bounded-concurrency
pipeline that lists files of remote repositories, fetches matching files,
builds ingestion records and inserts them into a document store in batches.

The pure data flow (`get_file_content`, `process_repo`, batching, the final
insert loop) is embedded as Lean functions over explicit response scripts.
The async execution of the repository walks under the shared semaphore
(`MAX_CONCURRENT_REQUESTS = 3`) is embedded as a small-step interleaving
semantics (`Step`/`Reach`) over per-task phases.
-/

namespace PopulateDB

/-- `MAX_CONCURRENT_REQUESTS = 3` — capacity of the shared `asyncio.Semaphore`. -/
def MAX_CONCURRENT_REQUESTS : Nat := 3

/-- Repository descriptor, one entry of the `VERIFIED_REPOS` catalog. -/
structure Repo where
  url : String
  name : String
  description : String
  language : String
  stars : Nat
  topics : List String
  frameworks : List String
deriving DecidableEq, Repr

/-- One item of a repository top-level listing (`{name, path, type}`). -/
structure FileEntry where
  name : String
  path : String
  type : String
deriving DecidableEq, Repr

/-- Body of an HTTP 200 reply to a file-content request, as the code
distinguishes it: a dict carrying a decodable base64 `content` field,
some other JSON shape (dict without `content`, or an array), or a payload
whose base64/utf-8 decoding raises. -/
inductive Payload where
  | fileObj (content : String)
  | nonFile
  | decodeError
deriving DecidableEq, Repr

/-- Outcome of one HTTP attempt of `get_file_content`: the status cases the
code branches on, plus a transport exception (connection, timeout, JSON
decode) caught by the surrounding `except`. -/
inductive FetchResponse where
  | notFound
  | rateLimited
  | ok (payload : Payload)
  | otherStatus (code : Nat)
  | transportError
deriving DecidableEq, Repr

/-- The string `get_file_content` produces from one non-403 response:
200 with a dict having a decodable `content` field yields the decoded text,
every other case falls through to (or is caught and turned into) `""`. -/
def responseContent : FetchResponse → String
  | .ok (.fileObj c) => c
  | _ => ""

/-- `get_file_content`, run against a script of successive responses (one
per HTTP attempt; the retry recursion consumes the next response).
Returns the content string and the total seconds slept in 403 cooldowns:
404 → `""`; 403 → sleep 60 then retry the identical request on the rest of
the script; 200 → decoded `content` field or `""`; any other status or a
transport exception → `""`. An exhausted script reads as a transport
error. -/
def get_file_content : List FetchResponse → String × Nat
  | [] => ("", 0)
  | .rateLimited :: rest =>
      let r := get_file_content rest
      (r.1, 60 + r.2)
  | r :: _ => (responseContent r, 0)

/-- The extension tuple of the `endswith` filter in `process_repo`. -/
def CODE_EXTENSIONS : List String :=
  [".js", ".ts", ".py", ".java", ".rs", ".go", ".cpp"]

/-- Python `str.endswith(e)`: the characters of `e` terminate the
characters of the string. -/
def strEndsWith (name e : String) : Bool :=
  e.data.isSuffixOf name.data

/-- `item["name"].endswith((".js", ".ts", ".py", ".java", ".rs", ".go", ".cpp"))`. -/
def matchesExt (name : String) : Bool :=
  CODE_EXTENSIONS.any (fun e => strEndsWith name e)

/-- The nested `metadata` dict of an ingestion document. -/
structure DocMetadata where
  size : Nat
  type : String
  extension : String
deriving DecidableEq, Repr

/-- One MongoDB document built by `process_repo` (an ingestion record). -/
structure Doc where
  repo_name : String
  repo_url : String
  file_name : String
  file_path : String
  language : String
  content : String
  topics : List String
  frameworks : List String
  stars : Nat
  created_at : Nat
  metadata : DocMetadata
deriving DecidableEq, Repr

/-- Python `str.split(".")`, over the string's characters: the list of
(possibly empty) chunks between the dots; never empty. -/
def splitOnDot : List Char → List (List Char)
  | [] => [[]]
  | c :: rest =>
      if c = '.' then [] :: splitOnDot rest
      else
        match splitOnDot rest with
        | [] => [[c]]
        | h :: t => (c :: h) :: t

/-- `item["name"].split(".")[-1]`: the final dot-separated suffix. -/
def lastSuffix (name : String) : String :=
  String.mk ((splitOnDot name.data).getLastD [])

/-- The document literal built in `process_repo` for one fetched file. -/
def mkDoc (repo : Repo) (item : FileEntry) (content : String) (now : Nat) : Doc where
  repo_name := repo.name
  repo_url := repo.url
  file_name := item.name
  file_path := item.path
  language := repo.language
  content := content
  topics := repo.topics
  frameworks := repo.frameworks
  stars := repo.stars
  created_at := now
  metadata :=
    { size := content.length
      type := "code"
      extension := lastSuffix item.name }

/-- Result of the top-level listing call of a walk: `failure` covers a
non-200 status as well as an exception raised during the call (both end in
`return []`), `ok` carries the decoded JSON array of entries. -/
inductive ListingResult where
  | failure
  | ok (entries : List FileEntry)
deriving DecidableEq, Repr

/-- Everything the environment decides for one repository walk: the repo
descriptor, the listing outcome, the response script served for each file
path, and the wall-clock value `datetime.now()` stamps on its documents. -/
structure RepoEnv where
  repo : Repo
  listing : ListingResult
  fetchScript : String → List FetchResponse
  now : Nat

/-- The `for item in contents` loop body of `process_repo`: keep entries of
type `"file"` with a matching extension, fetch, and record the document iff
the fetched content is non-empty. -/
def processEntries (repo : Repo) (fetchScript : String → List FetchResponse)
    (now : Nat) : List FileEntry → List Doc
  | [] => []
  | item :: rest =>
      if item.type = "file" ∧ matchesExt item.name then
        let content := (get_file_content (fetchScript item.path)).1
        if content = "" then processEntries repo fetchScript now rest
        else mkDoc repo item content now :: processEntries repo fetchScript now rest
      else processEntries repo fetchScript now rest

/-- `process_repo`: a failed listing (non-200 or exception) yields `[]`,
otherwise the entry loop runs. -/
def process_repo (e : RepoEnv) : List Doc :=
  match e.listing with
  | .failure => []
  | .ok entries => processEntries e.repo e.fetchScript e.now entries

/-- `await asyncio.gather(*tasks)`: one result per repository of the
flattened catalog, in catalog order, each walk completing with its own
result. -/
def gatherResults (env : List RepoEnv) : List (List Doc) :=
  env.map process_repo

/-- `batch_size = 100`. -/
def BATCH_SIZE : Nat := 100

/-- The slices `repo_contents[i:i + batch_size]` for `i in
range(0, len(repo_contents), batch_size)`, by fuel-indexed recursion
(`fuel ≥ length` makes the fuel irrelevant). -/
def chunksAux : Nat → List Doc → List (List Doc)
  | _, [] => []
  | 0, _ :: _ => []
  | fuel + 1, x :: xs =>
      (x :: xs).take BATCH_SIZE :: chunksAux fuel ((x :: xs).drop BATCH_SIZE)

/-- The batches one repository record collection is split into. -/
def chunks100 (l : List Doc) : List (List Doc) :=
  chunksAux l.length l

/-- Batch lengths as a function of the collection length alone. -/
def chunkSizes : Nat → Nat → List Nat
  | _, 0 => []
  | 0, _ + 1 => []
  | fuel + 1, n + 1 => min BATCH_SIZE (n + 1) :: chunkSizes fuel (n + 1 - BATCH_SIZE)

/-- The batch-insert calls a full run issues, in order: for each walk
result in gather order, skip it if empty (`if repo_contents:`), else
submit its 100-slices in sequence. -/
def insertCalls (env : List RepoEnv) : List (List Doc) :=
  ((gatherResults env).map
    (fun rc => if rc.isEmpty then [] else chunks100 rc)).flatten

/-- `collection.insert_many` is a plain append of the batch to the
collection: no dedup key, no upsert. The sink state is the list of
documents inserted so far. -/
def insert_many (sink : List Doc) (batch : List Doc) : List Doc :=
  sink ++ batch

/-- Sink contents after one complete successful run against catalog
environment `env`, starting from sink state `sink`: every batch-insert
call lands in order. -/
def runOnce (sink : List Doc) (env : List RepoEnv) : List Doc :=
  (insertCalls env).foldl insert_many sink

/-- What `main` does with the batch list when the sink may fail:
submit batches in order; the first failing `insert_many` raises, ending the
loop. Returns the batches actually submitted and whether an error was
raised. -/
def insertLoop (fails : List Doc → Bool) : List (List Doc) → List (List Doc) × Bool
  | [] => ([], false)
  | b :: rest =>
      if fails b then ([b], true)
      else
        let r := insertLoop fails rest
        (b :: r.1, r.2)

/-- Observable outcome of `main` around the insert loop: the submitted
batches, whether the run terminates with a propagated error (the `except`
re-raises, so the process exits non-zero), and whether `client.close()`
ran (the `finally`). -/
structure RunOutcome where
  submitted : List (List Doc)
  exitNonZero : Bool
  closed : Bool
deriving DecidableEq, Repr

/-- `main`'s insert phase: run the batch loop; an insert failure propagates
out of `try` (re-raised by the `except`), and `finally: client.close()`
runs on every path. -/
def mainRun (fails : List Doc → Bool) (batches : List (List Doc)) : RunOutcome where
  submitted := (insertLoop fails batches).1
  exitNonZero := (insertLoop fails batches).2
  closed := true

/-! ## Small-step semantics of the concurrent walks

One task per repository runs `process_repo`; all share one
`Semaphore(MAX_CONCURRENT_REQUESTS)`. A task's phase records where its
coroutine is suspended. In the source, `async with semaphore:` encloses the
whole walk — the listing call, the entry loop and every `get_file_content`
call (which itself never touches the semaphore) — so every phase between
acquisition and the final release holds the permit. -/

/-- Suspension phase of one repository-walk task. -/
inductive Phase where
  /-- Before `async with semaphore` admits the task. -/
  | start
  /-- Listing HTTP call in flight (permit held). -/
  | listingCall
  /-- At the entry-loop head, between remote calls (permit held). -/
  | scanning (pending : List FileEntry) (acc : List Doc)
  /-- A `get_file_content` HTTP call in flight (permit held). -/
  | fetchCall (item : FileEntry) (script : List FetchResponse)
      (pending : List FileEntry) (acc : List Doc)
  /-- Inside `asyncio.sleep(60)` after a 403 (permit held). -/
  | cooldown (item : FileEntry) (script : List FetchResponse)
      (pending : List FileEntry) (acc : List Doc)
  /-- Returned; permit released. -/
  | finished (result : List Doc)
deriving DecidableEq

/-- Phases during which the task holds a semaphore permit. -/
def holdsPermit : Phase → Bool
  | .start => false
  | .finished _ => false
  | _ => true

/-- Phases during which the task has a remote HTTP call in flight. -/
def inFlight : Phase → Bool
  | .listingCall => true
  | .fetchCall _ _ _ _ => true
  | _ => false

/-- Global state of the interleaved execution: free permits of the shared
semaphore, the phase of each task (index-aligned with the environment
list), and event counters: semaphore acquisitions, listing HTTP calls
started, file-fetch HTTP calls started. -/
structure GState where
  avail : Nat
  tasks : List Phase
  acquires : Nat
  listingCalls : Nat
  fetchCalls : Nat
deriving DecidableEq

/-- Initial state: a full semaphore, every task waiting to enter
`async with semaphore`. -/
def initState (env : List RepoEnv) : GState where
  avail := MAX_CONCURRENT_REQUESTS
  tasks := env.map (fun _ => Phase.start)
  acquires := 0
  listingCalls := 0
  fetchCalls := 0

/-- Documents the loop body appends for one completed fetch response of
`item`: one document when the content is non-empty, none otherwise. -/
def recordsOf (e : RepoEnv) (item : FileEntry) (r : FetchResponse) : List Doc :=
  if responseContent r = "" then [] else [mkDoc e.repo item (responseContent r) e.now]

/-- One interleaving step: some task advances at one of its suspension
points. -/
inductive Step (env : List RepoEnv) : GState → GState → Prop
  /-- `async with semaphore` admits task `i` (needs a free permit) and the
  listing `session.get` departs. -/
  | acquire (s : GState) (i : Nat)
      (hi : s.tasks[i]? = some .start) (ha : 0 < s.avail) :
      Step env s
        { avail := s.avail - 1
          tasks := s.tasks.set i .listingCall
          acquires := s.acquires + 1
          listingCalls := s.listingCalls + 1
          fetchCalls := s.fetchCalls }
  /-- The listing call returns non-200 or raises: `return []`, releasing
  the permit. -/
  | listingFail (s : GState) (i : Nat) (e : RepoEnv)
      (he : env[i]? = some e) (hl : e.listing = .failure)
      (hi : s.tasks[i]? = some .listingCall) :
      Step env
        s
        { s with
          avail := s.avail + 1
          tasks := s.tasks.set i (.finished []) }
  /-- The listing call returns 200 with `entries`; the entry loop starts. -/
  | listingOk (s : GState) (i : Nat) (e : RepoEnv) (entries : List FileEntry)
      (he : env[i]? = some e) (hl : e.listing = .ok entries)
      (hi : s.tasks[i]? = some .listingCall) :
      Step env s
        { s with tasks := s.tasks.set i (.scanning entries []) }
  /-- The loop skips an entry that is not a file with a matching
  extension. -/
  | skipEntry (s : GState) (i : Nat) (item : FileEntry)
      (pending : List FileEntry) (acc : List Doc)
      (hskip : ¬(item.type = "file" ∧ matchesExt item.name))
      (hi : s.tasks[i]? = some (.scanning (item :: pending) acc)) :
      Step env s
        { s with tasks := s.tasks.set i (.scanning pending acc) }
  /-- The loop reaches a matching file entry: `get_file_content` issues its
  `session.get` (no semaphore interaction). -/
  | startFetch (s : GState) (i : Nat) (e : RepoEnv) (item : FileEntry)
      (pending : List FileEntry) (acc : List Doc)
      (he : env[i]? = some e)
      (hfile : item.type = "file" ∧ matchesExt item.name)
      (hi : s.tasks[i]? = some (.scanning (item :: pending) acc)) :
      Step env s
        { s with
          tasks := s.tasks.set i (.fetchCall item (e.fetchScript item.path) pending acc)
          fetchCalls := s.fetchCalls + 1 }
  /-- The fetch call returns 403: `asyncio.sleep(60)` begins. -/
  | fetch403 (s : GState) (i : Nat) (item : FileEntry)
      (script : List FetchResponse) (pending : List FileEntry) (acc : List Doc)
      (hi : s.tasks[i]? = some (.fetchCall item (.rateLimited :: script) pending acc)) :
      Step env s
        { s with tasks := s.tasks.set i (.cooldown item script pending acc) }
  /-- The cooldown elapses: `get_file_content` retries the identical
  request with a new `session.get`. -/
  | wake (s : GState) (i : Nat) (item : FileEntry)
      (script : List FetchResponse) (pending : List FileEntry) (acc : List Doc)
      (hi : s.tasks[i]? = some (.cooldown item script pending acc)) :
      Step env s
        { s with
          tasks := s.tasks.set i (.fetchCall item script pending acc)
          fetchCalls := s.fetchCalls + 1 }
  /-- The fetch call completes with a non-403 response `r`:
  `get_file_content` returns its content and the loop appends a document
  iff the content is non-empty. -/
  | fetchDone (s : GState) (i : Nat) (e : RepoEnv) (item : FileEntry)
      (r : FetchResponse) (script : List FetchResponse)
      (pending : List FileEntry) (acc : List Doc)
      (he : env[i]? = some e) (hr : r ≠ .rateLimited)
      (hi : s.tasks[i]? = some (.fetchCall item (r :: script) pending acc)) :
      Step env s
        { s with tasks := s.tasks.set i (.scanning pending (acc ++ recordsOf e item r)) }
  /-- The fetch call dies in a transport error before any scripted response
  (the exhausted-script reading): content `""`, no document. -/
  | fetchError (s : GState) (i : Nat) (item : FileEntry)
      (pending : List FileEntry) (acc : List Doc)
      (hi : s.tasks[i]? = some (.fetchCall item [] pending acc)) :
      Step env s
        { s with tasks := s.tasks.set i (.scanning pending acc) }
  /-- The entry loop is done: `return processed_files`, releasing the
  permit. -/
  | finish (s : GState) (i : Nat) (acc : List Doc)
      (hi : s.tasks[i]? = some (.scanning [] acc)) :
      Step env s
        { s with
          avail := s.avail + 1
          tasks := s.tasks.set i (.finished acc) }

/-- States reachable from the initial state by interleaving steps. -/
inductive Reach (env : List RepoEnv) : GState → Prop
  | init : Reach env (initState env)
  | step {s t : GState} : Reach env s → Step env s t → Reach env t

/-- A run is complete when every task has returned. -/
def Completed (s : GState) : Prop :=
  ∀ ph ∈ s.tasks, ∃ d, ph = Phase.finished d

/-- The spec's description of permit usage, as a claim over runs: the
listing call and every file-fetch call each acquire their own permit, so a
completed run has as many acquisitions as remote calls. -/
def permitPerCallClaim : Prop :=
  ∀ (env : List RepoEnv) (s : GState), Reach env s → Completed s →
    s.acquires = s.listingCalls + s.fetchCalls

/-- Remote calls a task has in flight: its phase is a single suspension
point, so this is one during a listing or fetch call and zero otherwise. -/
def inFlightCalls (ph : Phase) : Nat :=
  if inFlight ph then 1 else 0

/-- Semaphore accounting: free plus held permits equal the ceiling, and
every acquisition so far started a listing call (the fetcher never
acquires). -/
def StateInv (s : GState) : Prop :=
  s.avail + s.tasks.countP holdsPermit = MAX_CONCURRENT_REQUESTS ∧
  s.acquires = s.listingCalls

/-! ## Concrete sample data for witnesses and counterexamples -/

/-- A catalog entry (the first one of `VERIFIED_REPOS["python"]`). -/
def sampleRepo : Repo where
  url := "https://github.com/tiangolo/fastapi"
  name := "fastapi"
  description := "FastAPI framework, high performance, web APIs"
  language := "python"
  stars := 65000
  topics := ["api", "async", "python3", "web-framework"]
  frameworks := ["FastAPI", "Pydantic"]

/-- A matching top-level file entry. -/
def fileA : FileEntry where
  name := "a.py"
  path := "a.py"
  type := "file"

/-- A second matching top-level file entry. -/
def fileB : FileEntry where
  name := "b.py"
  path := "b.py"
  type := "file"

/-- An environment whose one repository lists two matching files, every
fetch answering 200 with decodable content. -/
def envA : RepoEnv where
  repo := sampleRepo
  listing := .ok [fileA, fileB]
  fetchScript := fun _ => [.ok (.fileObj "x")]
  now := 0

/-- One-repository catalog environment around `envA`. -/
def twoFileEnv : List RepoEnv := [envA]

/-- An environment whose repository listing call fails. -/
def envFail : RepoEnv where
  repo := sampleRepo
  listing := .failure
  fetchScript := fun _ => []
  now := 0

/-- The document `envA`'s walk builds for `fileA`. -/
def docA : Doc := mkDoc sampleRepo fileA "x" 0

/-- The state of `twoFileEnv`'s run right after its single task is
admitted by the semaphore, its listing call in flight. -/
def afterFirstAcquire : GState where
  avail := 2
  tasks := [Phase.listingCall]
  acquires := 1
  listingCalls := 1
  fetchCalls := 0

/-! ## Helper lemmas -/

theorem countP_set_add (p : Phase → Bool) :
    ∀ (l : List Phase) (i : Nat) (a b : Phase), l[i]? = some a →
      (l.set i b).countP p + (if p a then 1 else 0)
        = l.countP p + (if p b then 1 else 0)
  | [], i, a, b, h => by simp at h
  | x :: xs, 0, a, b, h => by
      simp only [List.getElem?_cons_zero, Option.some.injEq] at h
      subst h
      simp [List.countP_cons]
      omega
  | x :: xs, i + 1, a, b, h => by
      simp only [List.getElem?_cons_succ] at h
      have ih := countP_set_add p xs i a b h
      simp only [List.set_cons_succ, List.countP_cons]
      omega

theorem chunksAux_flatten :
    ∀ (fuel : Nat) (l : List Doc), l.length ≤ fuel →
      (chunksAux fuel l).flatten = l
  | fuel, [], _ => by cases fuel <;> rfl
  | 0, x :: xs, h => by simp at h
  | fuel + 1, x :: xs, h => by
      have hlen : ((x :: xs).drop BATCH_SIZE).length ≤ fuel := by
        simp [BATCH_SIZE] at h ⊢
        omega
      simp only [chunksAux, List.flatten_cons, chunksAux_flatten fuel _ hlen,
        List.take_append_drop]

theorem chunksAux_length :
    ∀ (fuel : Nat) (l : List Doc), l.length ≤ fuel →
      (chunksAux fuel l).length = (l.length + (BATCH_SIZE - 1)) / BATCH_SIZE
  | fuel, [], _ => by cases fuel <;> rfl
  | 0, x :: xs, h => by simp at h
  | fuel + 1, x :: xs, h => by
      have hlen : ((x :: xs).drop BATCH_SIZE).length ≤ fuel := by
        simp [BATCH_SIZE] at h ⊢
        omega
      have ih := chunksAux_length fuel _ hlen
      simp only [chunksAux, List.length_cons, ih, List.length_drop] at ih ⊢
      simp [BATCH_SIZE] at ih ⊢
      omega

theorem chunksAux_mem :
    ∀ (fuel : Nat) (l : List Doc) (b : List Doc), b ∈ chunksAux fuel l →
      b.length ≤ BATCH_SIZE ∧ b ≠ []
  | 0, [], b, h => by simp [chunksAux] at h
  | 0, _ :: _, b, h => by simp [chunksAux] at h
  | fuel + 1, [], b, h => by simp [chunksAux] at h
  | fuel + 1, x :: xs, b, h => by
      simp only [chunksAux, List.mem_cons] at h
      rcases h with h | h
      · subst h
        refine ⟨by simp, ?_⟩
        simp [BATCH_SIZE, List.take_cons]
      · exact chunksAux_mem fuel _ b h

theorem chunksAux_map_length :
    ∀ (fuel : Nat) (l : List Doc),
      (chunksAux fuel l).map List.length = chunkSizes fuel l.length
  | 0, [] => rfl
  | 0, _ :: _ => rfl
  | fuel + 1, [] => rfl
  | fuel + 1, x :: xs => by
      simp only [chunksAux, List.map_cons, chunksAux_map_length fuel _,
        List.length_drop, List.length_take, List.length_cons, chunkSizes]

theorem foldl_insert_many :
    ∀ (bs : List (List Doc)) (sink : List Doc),
      bs.foldl insert_many sink = sink ++ bs.flatten
  | [], sink => by simp
  | b :: rest, sink => by
      simp only [List.foldl_cons, foldl_insert_many rest, insert_many,
        List.flatten_cons, List.append_assoc]

theorem insertLoop_clean :
    ∀ (fails : List Doc → Bool) (bs : List (List Doc)),
      (∀ a ∈ bs, fails a = false) → insertLoop fails bs = (bs, false)
  | fails, [], h => rfl
  | fails, b :: rest, h => by
      have hb : fails b = false := h b (by simp)
      have ih := insertLoop_clean fails rest (fun a ha => h a (by simp [ha]))
      simp [insertLoop, hb, ih]

theorem processEntries_mem {repo : Repo} {fs : String → List FetchResponse}
    {now : Nat} :
    ∀ {entries : List FileEntry} {doc : Doc},
      doc ∈ processEntries repo fs now entries →
      ∃ item ∈ entries, item.type = "file" ∧ matchesExt item.name = true ∧
        (get_file_content (fs item.path)).1 ≠ "" ∧
        doc = mkDoc repo item ((get_file_content (fs item.path)).1) now := by
  intro entries
  induction entries with
  | nil => intro doc h; simp [processEntries] at h
  | cons item rest ih =>
      intro doc h
      simp only [processEntries] at h
      by_cases hfile : item.type = "file" ∧ matchesExt item.name
      · rw [if_pos hfile] at h
        by_cases hc : (get_file_content (fs item.path)).1 = ""
        · rw [if_pos hc] at h
          obtain ⟨it, hit, hprops⟩ := ih h
          exact ⟨it, by simp [hit], hprops⟩
        · rw [if_neg hc] at h
          rcases List.mem_cons.mp h with h | h
          · exact ⟨item, by simp, hfile.1, by simp [hfile.2], hc, h⟩
          · obtain ⟨it, hit, hprops⟩ := ih h
            exact ⟨it, by simp [hit], hprops⟩
      · rw [if_neg hfile] at h
        obtain ⟨it, hit, hprops⟩ := ih h
        exact ⟨it, by simp [hit], hprops⟩

/-! ## Claim theorems -/

/-- C3: a fetch answered by `k` consecutive 403s and then a 200 with valid
(non-empty) content sleeps one 60-second cooldown per 403, retries the
identical request each time, returns the decoded content, and the walk
records exactly one document for that file. -/
theorem rate_limit_retry_until_success (k : Nat) (c : String) (rest : List FetchResponse)
    (repo : Repo) (now : Nat) (fs : String → List FetchResponse) (item : FileEntry)
    (hc : c ≠ "") :
    get_file_content (List.replicate k .rateLimited ++ .ok (.fileObj c) :: rest)
      = (c, 60 * k) ∧
    (item.type = "file" → matchesExt item.name = true →
      fs item.path = List.replicate k .rateLimited ++ .ok (.fileObj c) :: rest →
      processEntries repo fs now [item] = [mkDoc repo item c now]) := by
  have hget : ∀ (n : Nat),
      get_file_content (List.replicate n .rateLimited ++ .ok (.fileObj c) :: rest)
        = (c, 60 * n) := by
    intro n
    induction n with
    | zero => rfl
    | succ m ih =>
        have hstep :
            get_file_content
                (List.replicate (m + 1) .rateLimited ++ .ok (.fileObj c) :: rest)
              = ((get_file_content
                    (List.replicate m .rateLimited ++ .ok (.fileObj c) :: rest)).1,
                 60 + (get_file_content
                    (List.replicate m .rateLimited ++ .ok (.fileObj c) :: rest)).2) :=
          rfl
        rw [hstep, ih]
        simp only [Prod.mk.injEq]
        exact ⟨trivial, by ring⟩
  refine ⟨hget k, fun htype hext hfs => ?_⟩
  have hcond : item.type = "file" ∧ matchesExt item.name := ⟨htype, hext⟩
  simp only [processEntries, if_pos hcond, hfs, hget k]
  simp [hc]

/-- Witness for C3 at `k = 2`, content `"x"`, entry `fileA`. -/
theorem rate_limit_retry_until_success_witness :
    get_file_content
        (List.replicate 2 .rateLimited ++ .ok (.fileObj "x") :: []) = ("x", 120) ∧
    processEntries sampleRepo
        (fun _ => List.replicate 2 .rateLimited ++ .ok (.fileObj "x") :: [])
        0 [fileA] = [mkDoc sampleRepo fileA "x" 0] := by
  have h := rate_limit_retry_until_success 2 "x" [] sampleRepo 0
    (fun _ => List.replicate 2 .rateLimited ++ .ok (.fileObj "x") :: [])
    fileA (by decide)
  exact ⟨h.1, h.2 (by decide) (by decide) rfl⟩

/-- C4: a repository whose listing call returns non-200 or raises
contributes exactly zero records; the gather joins all walks (one result
per catalog entry, in order), and every repository's result is determined
by its own environment alone, so sibling walks are unaffected and no error
propagates. -/
theorem failed_listing_contributes_nothing (env : List RepoEnv) (i : Nat)
    (e : RepoEnv) (he : env[i]? = some e) (hl : e.listing = .failure) :
    (gatherResults env)[i]? = some [] ∧
    (gatherResults env).length = env.length ∧
    (∀ (j : Nat) (f : RepoEnv), env[j]? = some f →
      (gatherResults env)[j]? = some (process_repo f)) := by
  refine ⟨?_, by simp [gatherResults], fun j f hf => ?_⟩
  · simp [gatherResults, List.getElem?_map, he, process_repo, hl]
  · simp [gatherResults, List.getElem?_map, hf]

/-- Witness for C4: a two-repository catalog where the first listing fails
and the second succeeds. -/
theorem failed_listing_contributes_nothing_witness :
    (gatherResults [envFail, envA])[0]? = some [] ∧
    (gatherResults [envFail, envA]).length = 2 ∧
    (gatherResults [envFail, envA])[1]? = some (process_repo envA) := by
  have h := failed_listing_contributes_nothing [envFail, envA] 0 envFail rfl rfl
  exact ⟨h.1, h.2.1, h.2.2 1 envA rfl⟩

/-- C5: one repository collection of `n` records is split into exactly
`⌈n / 100⌉` batch-insert calls, submitted in sequence, each of at most
100 records (and never empty), whose concatenation in order is the
original collection; 250 records give batch sizes 100, 100, 50. -/
theorem batching_ceil_division (l : List Doc) :
    ((chunks100 l).length = (l.length + (BATCH_SIZE - 1)) / BATCH_SIZE ∧
      (∀ b ∈ chunks100 l, b.length ≤ BATCH_SIZE ∧ b ≠ []) ∧
      (chunks100 l).flatten = l) ∧
    (l.length = 250 → (chunks100 l).map List.length = [100, 100, 50]) := by
  refine ⟨⟨chunksAux_length l.length l le_rfl,
    fun b hb => chunksAux_mem l.length l b hb,
    chunksAux_flatten l.length l le_rfl⟩, fun h250 => ?_⟩
  rw [chunks100, chunksAux_map_length, h250]
  decide

/-- Witness for C5 on a concrete 250-record collection. -/
theorem batching_ceil_division_witness :
    (chunks100 (List.replicate 250 docA)).flatten = List.replicate 250 docA ∧
    (chunks100 (List.replicate 250 docA)).map List.length = [100, 100, 50] := by
  have h := batching_ceil_division (List.replicate 250 docA)
  exact ⟨h.1.2.2, h.2 (List.length_replicate 250 docA)⟩

/-- C6: every record a walk produces has non-empty content, a size metric
equal to its content length, and an extension equal to the final
dot-separated suffix of its file name; it comes from a listed entry of
type `"file"` whose name ends in one of the seven code extensions. -/
theorem record_invariants (e : RepoEnv) (doc : Doc)
    (hd : doc ∈ process_repo e) :
    doc.content ≠ "" ∧
    doc.metadata.size = doc.content.length ∧
    doc.metadata.extension = lastSuffix doc.file_name ∧
    ∃ entries, e.listing = .ok entries ∧
      ∃ item ∈ entries, item.type = "file" ∧ matchesExt item.name = true ∧
        doc.file_name = item.name ∧ doc.file_path = item.path := by
  unfold process_repo at hd
  cases hl : e.listing with
  | failure => rw [hl] at hd; simp at hd
  | ok entries =>
      rw [hl] at hd
      obtain ⟨item, hit, htype, hext, hne, hdoc⟩ := processEntries_mem hd
      subst hdoc
      exact ⟨hne, rfl, rfl, entries, rfl, item, hit, htype, hext, rfl, rfl⟩

/-- Witness for C6: the record `envA`'s walk builds for `fileA`. -/
theorem record_invariants_witness :
    docA.content ≠ "" ∧
    docA.metadata.size = docA.content.length ∧
    docA.metadata.extension = lastSuffix docA.file_name ∧
    ∃ entries, envA.listing = .ok entries ∧
      ∃ item ∈ entries, item.type = "file" ∧ matchesExt item.name = true ∧
        docA.file_name = item.name ∧ docA.file_path = item.path :=
  record_invariants envA docA (by decide)

/-- C7: a fetch whose next response is a 404, any status other than
200/403/404, or a transport/decode exception returns empty content at
once — the rest of the script is irrelevant, so there is no retry and no
cooldown — and the walk records nothing for such a file. -/
theorem terminal_empty_responses (r : FetchResponse)
    (h : r = .notFound ∨ (∃ code, r = .otherStatus code) ∨
      r = .transportError ∨ r = .ok .decodeError)
    (rest : List FetchResponse) (repo : Repo) (now : Nat)
    (fs : String → List FetchResponse) (item : FileEntry) :
    get_file_content (r :: rest) = ("", 0) ∧
    (fs item.path = r :: rest → processEntries repo fs now [item] = []) := by
  have hget : get_file_content (r :: rest) = ("", 0) := by
    rcases h with h | ⟨code, h⟩ | h | h <;> subst h <;>
      simp [get_file_content, responseContent]
  refine ⟨hget, fun hfs => ?_⟩
  by_cases hfile : item.type = "file" ∧ matchesExt item.name
  · simp only [processEntries, if_pos hfile, hfs, hget]
    simp [processEntries]
  · simp only [processEntries, if_neg hfile]

/-- Witness for C7 at a 404 on `fileA`. -/
theorem terminal_empty_responses_witness :
    get_file_content [FetchResponse.notFound] = ("", 0) ∧
    processEntries sampleRepo (fun _ => [FetchResponse.notFound]) 0 [fileA] = [] := by
  have h := terminal_empty_responses .notFound (Or.inl rfl) [] sampleRepo 0
    (fun _ => [FetchResponse.notFound]) fileA
  exact ⟨h.1, h.2 rfl⟩

/-- C8: a failing batch-insert aborts the run — the failing call is the
last one submitted (none of the later batches is), the error propagates so
the process exits non-zero, and the sink connection is closed on every
exit path. -/
theorem sink_failure_aborts (fails : List Doc → Bool) (pre : List (List Doc))
    (b : List Doc) (post : List (List Doc))
    (hpre : ∀ a ∈ pre, fails a = false) (hb : fails b = true) :
    (mainRun fails (pre ++ b :: post)).submitted = pre ++ [b] ∧
    (mainRun fails (pre ++ b :: post)).exitNonZero = true ∧
    (∀ bs, (mainRun fails bs).closed = true) := by
  have hloop : ∀ (p : List (List Doc)), (∀ a ∈ p, fails a = false) →
      insertLoop fails (p ++ b :: post) = (p ++ [b], true) := by
    intro p
    induction p with
    | nil => intro _; simp [insertLoop, hb]
    | cons a q ih =>
        intro hp
        have ha : fails a = false := hp a (by simp)
        have := ih (fun x hx => hp x (by simp [hx]))
        simp [insertLoop, ha, this]
  exact ⟨by simp [mainRun, hloop pre hpre], by simp [mainRun, hloop pre hpre],
    fun bs => rfl⟩

/-- Witness for C8: one clean batch, then a failing one, then a batch that
is never submitted. -/
theorem sink_failure_aborts_witness :
    (mainRun List.isEmpty [[docA], [], [docA]]).submitted = [[docA], []] ∧
    (mainRun List.isEmpty [[docA], [], [docA]]).exitNonZero = true ∧
    (mainRun List.isEmpty [[docA]]).closed = true := by
  have h := sink_failure_aborts List.isEmpty [[docA]] [] [[docA]]
    (by intro a ha; simp at ha; simp [ha]) rfl
  exact ⟨h.1, h.2.1, h.2.2 [[docA]]⟩

/-- C9: a run is not idempotent — `insert_many` is a plain append with no
dedup key or upsert, so a second identical run against an unchanged
catalog and unchanged remote responses doubles the sink: the sink equals
two copies of the first run's inserts, and every document inserted once is
present at least twice afterwards. -/
theorem rerun_duplicates (env : List RepoEnv) (d : Doc)
    (hd : d ∈ runOnce [] env) :
    runOnce (runOnce [] env) env = runOnce [] env ++ runOnce [] env ∧
    2 ≤ (runOnce (runOnce [] env) env).count d := by
  have hfold : ∀ sink, runOnce sink env = sink ++ (insertCalls env).flatten :=
    fun sink => foldl_insert_many (insertCalls env) sink
  have h1 : runOnce [] env = (insertCalls env).flatten := by simp [hfold]
  constructor
  · rw [hfold, h1]
  · rw [hfold, h1, List.count_append]
    have : 1 ≤ List.count d (insertCalls env).flatten := by
      rw [← h1]
      exact List.one_le_count_iff.mpr hd
    omega

/-- Witness for C9: re-running `twoFileEnv` duplicates `docA`. -/
theorem rerun_duplicates_witness :
    runOnce (runOnce [] twoFileEnv) twoFileEnv
        = runOnce [] twoFileEnv ++ runOnce [] twoFileEnv ∧
    2 ≤ (runOnce (runOnce [] twoFileEnv) twoFileEnv).count docA :=
  rerun_duplicates twoFileEnv docA (by decide)

/-! ## Semaphore invariants of the interleaving semantics -/

theorem stateInv_init (env : List RepoEnv) : StateInv (initState env) := by
  constructor
  · simp [initState, List.countP_map, Function.comp, holdsPermit,
      MAX_CONCURRENT_REQUESTS]
  · rfl

theorem stateInv_step {env : List RepoEnv} {s t : GState}
    (hs : StateInv s) (h : Step env s t) : StateInv t := by
  obtain ⟨h1, h2⟩ := hs
  cases h with
  | acquire i hi ha =>
      have hc := countP_set_add holdsPermit s.tasks i Phase.start
        Phase.listingCall hi
      simp [holdsPermit] at hc
      unfold StateInv
      dsimp only
      omega
  | listingFail i e he hl hi =>
      have hc := countP_set_add holdsPermit s.tasks i Phase.listingCall
        (Phase.finished []) hi
      simp [holdsPermit] at hc
      unfold StateInv
      dsimp only
      omega
  | listingOk i e entries he hl hi =>
      have hc := countP_set_add holdsPermit s.tasks i Phase.listingCall
        (Phase.scanning entries []) hi
      simp [holdsPermit] at hc
      unfold StateInv
      dsimp only
      omega
  | skipEntry i item pending acc hskip hi =>
      have hc := countP_set_add holdsPermit s.tasks i
        (Phase.scanning (item :: pending) acc) (Phase.scanning pending acc) hi
      simp [holdsPermit] at hc
      unfold StateInv
      dsimp only
      omega
  | startFetch i e item pending acc he hfile hi =>
      have hc := countP_set_add holdsPermit s.tasks i
        (Phase.scanning (item :: pending) acc)
        (Phase.fetchCall item (e.fetchScript item.path) pending acc) hi
      simp [holdsPermit] at hc
      unfold StateInv
      dsimp only
      omega
  | fetch403 i item script pending acc hi =>
      have hc := countP_set_add holdsPermit s.tasks i
        (Phase.fetchCall item (.rateLimited :: script) pending acc)
        (Phase.cooldown item script pending acc) hi
      simp [holdsPermit] at hc
      unfold StateInv
      dsimp only
      omega
  | wake i item script pending acc hi =>
      have hc := countP_set_add holdsPermit s.tasks i
        (Phase.cooldown item script pending acc)
        (Phase.fetchCall item script pending acc) hi
      simp [holdsPermit] at hc
      unfold StateInv
      dsimp only
      omega
  | fetchDone i e item r script pending acc he hr hi =>
      have hc := countP_set_add holdsPermit s.tasks i
        (Phase.fetchCall item (r :: script) pending acc)
        (Phase.scanning pending (acc ++ recordsOf e item r)) hi
      simp [holdsPermit] at hc
      unfold StateInv
      dsimp only
      omega
  | fetchError i item pending acc hi =>
      have hc := countP_set_add holdsPermit s.tasks i
        (Phase.fetchCall item [] pending acc) (Phase.scanning pending acc) hi
      simp [holdsPermit] at hc
      unfold StateInv
      dsimp only
      omega
  | finish i acc hi =>
      have hc := countP_set_add holdsPermit s.tasks i
        (Phase.scanning [] acc) (Phase.finished acc) hi
      simp [holdsPermit] at hc
      unfold StateInv
      dsimp only
      omega

theorem stateInv_reach {env : List RepoEnv} {s : GState} (h : Reach env s) :
    StateInv s := by
  induction h with
  | init => exact stateInv_init env
  | step hr hstep ih => exact stateInv_step ih hstep

theorem inFlight_holdsPermit (ph : Phase) (h : inFlight ph = true) :
    holdsPermit ph = true := by
  cases ph <;> simp_all [inFlight, holdsPermit]

/-- C1: in every state any run of any catalog can reach, the number of
remote HTTP calls in flight — repository listing calls plus file fetch
calls, across all repositories — is at most the concurrency ceiling
`MAX_CONCURRENT_REQUESTS = 3`. -/
theorem in_flight_calls_bounded (env : List RepoEnv) (s : GState)
    (h : Reach env s) :
    s.tasks.countP inFlight ≤ MAX_CONCURRENT_REQUESTS := by
  have h1 := (stateInv_reach h).1
  have hm : s.tasks.countP inFlight ≤ s.tasks.countP holdsPermit :=
    List.countP_mono_left (fun ph _ hp => inFlight_holdsPermit ph hp)
  omega

/-- Witness for C1: the state of `twoFileEnv`'s run after the first
acquisition, with one listing call in flight. -/
theorem in_flight_calls_bounded_witness :
    afterFirstAcquire.tasks.countP inFlight ≤ MAX_CONCURRENT_REQUESTS :=
  in_flight_calls_bounded twoFileEnv _
    (Reach.step Reach.init (Step.acquire (initState twoFileEnv) 0 rfl (by decide)))

/-- C2 as stated is false on the code: the semaphore is acquired once per
walk, wrapped around the listing call and all of that repository's file
fetches, and `get_file_content` never acquires it. A completed run over
one repository with two fetched files makes one listing call and two fetch
calls but exactly one acquisition, not three. -/
theorem permit_per_call_claim_false : ¬ permitPerCallClaim := by
  intro hclaim
  have r0 : Reach twoFileEnv (initState twoFileEnv) := Reach.init
  have r1 : Reach twoFileEnv
      { avail := 2, tasks := [Phase.listingCall], acquires := 1,
        listingCalls := 1, fetchCalls := 0 } :=
    Reach.step r0 (Step.acquire (initState twoFileEnv) 0 rfl (by decide))
  have r2 : Reach twoFileEnv
      { avail := 2, tasks := [Phase.scanning [fileA, fileB] []], acquires := 1,
        listingCalls := 1, fetchCalls := 0 } :=
    Reach.step r1 (Step.listingOk _ 0 envA [fileA, fileB] rfl rfl rfl)
  have r3 : Reach twoFileEnv
      { avail := 2,
        tasks := [Phase.fetchCall fileA [.ok (.fileObj "x")] [fileB] []],
        acquires := 1, listingCalls := 1, fetchCalls := 1 } :=
    Reach.step r2 (Step.startFetch _ 0 envA fileA [fileB] [] rfl
      ⟨rfl, by decide⟩ rfl)
  have r4 : Reach twoFileEnv
      { avail := 2, tasks := [Phase.scanning [fileB] [docA]], acquires := 1,
        listingCalls := 1, fetchCalls := 1 } :=
    Reach.step r3 (Step.fetchDone _ 0 envA fileA (.ok (.fileObj "x")) [] [fileB]
      [] rfl (by decide) rfl)
  have r5 : Reach twoFileEnv
      { avail := 2,
        tasks := [Phase.fetchCall fileB [.ok (.fileObj "x")] [] [docA]],
        acquires := 1, listingCalls := 1, fetchCalls := 2 } :=
    Reach.step r4 (Step.startFetch _ 0 envA fileB [] [docA] rfl
      ⟨rfl, by decide⟩ rfl)
  have r6 : Reach twoFileEnv
      { avail := 2,
        tasks := [Phase.scanning [] [docA, mkDoc sampleRepo fileB "x" 0]],
        acquires := 1, listingCalls := 1, fetchCalls := 2 } :=
    Reach.step r5 (Step.fetchDone _ 0 envA fileB (.ok (.fileObj "x")) [] []
      [docA] rfl (by decide) rfl)
  have r7 : Reach twoFileEnv
      { avail := 3,
        tasks := [Phase.finished [docA, mkDoc sampleRepo fileB "x" 0]],
        acquires := 1, listingCalls := 1, fetchCalls := 2 } :=
    Reach.step r6 (Step.finish _ 0 [docA, mkDoc sampleRepo fileB "x" 0] rfl)
  have hcompl : Completed
      { avail := 3,
        tasks := [Phase.finished [docA, mkDoc sampleRepo fileB "x" 0]],
        acquires := 1, listingCalls := 1, fetchCalls := 2 } := by
    intro ph hph
    simp only [List.mem_singleton] at hph
    exact ⟨_, hph⟩
  have hcl := hclaim twoFileEnv _ r7 hcompl
  dsimp only at hcl
  omega

/-- C2 amended: each repository walk performs exactly one acquisition, at
the start of its listing call — the Content Fetcher never acquires a
permit — the permit stays held while any of the walk's calls is in flight,
and acquisitions and releases balance: free plus held permits always equal
the ceiling. -/
theorem walk_holds_one_permit (env : List RepoEnv) (s : GState)
    (h : Reach env s) :
    s.acquires = s.listingCalls ∧
    s.avail + s.tasks.countP holdsPermit = MAX_CONCURRENT_REQUESTS ∧
    ∀ ph ∈ s.tasks, inFlight ph = true → holdsPermit ph = true := by
  obtain ⟨h1, h2⟩ := stateInv_reach h
  exact ⟨h2, h1, fun ph _ hp => inFlight_holdsPermit ph hp⟩

/-- Witness for C2's amended claim at the state of `twoFileEnv`'s run
after its first acquisition. -/
theorem walk_holds_one_permit_witness :
    afterFirstAcquire.acquires = afterFirstAcquire.listingCalls ∧
    afterFirstAcquire.avail + afterFirstAcquire.tasks.countP holdsPermit
        = MAX_CONCURRENT_REQUESTS ∧
    ∀ ph ∈ afterFirstAcquire.tasks, inFlight ph = true → holdsPermit ph = true :=
  walk_holds_one_permit twoFileEnv _
    (Reach.step Reach.init (Step.acquire (initState twoFileEnv) 0 rfl (by decide)))

/-- C10: within one repository's walk the remote calls run strictly
sequentially — a task's phase has at most one call in flight — every call
runs under the single permit the walk acquired at its start (the fetcher
itself never acquires: acquisitions equal listing-call starts), and at
most `MAX_CONCURRENT_REQUESTS = 3` repository walks hold permits, hence
make progress, at any instant. -/
theorem sequential_walk_under_one_permit (env : List RepoEnv) (s : GState)
    (h : Reach env s) :
    (∀ ph ∈ s.tasks, inFlightCalls ph ≤ 1) ∧
    s.tasks.countP holdsPermit ≤ MAX_CONCURRENT_REQUESTS ∧
    s.acquires = s.listingCalls := by
  obtain ⟨h1, h2⟩ := stateInv_reach h
  refine ⟨fun ph _ => ?_, by omega, h2⟩
  unfold inFlightCalls
  split <;> omega

/-- Witness for C10 at the state of `twoFileEnv`'s run after its first
acquisition. -/
theorem sequential_walk_under_one_permit_witness :
    (∀ ph ∈ afterFirstAcquire.tasks, inFlightCalls ph ≤ 1) ∧
    afterFirstAcquire.tasks.countP holdsPermit ≤ MAX_CONCURRENT_REQUESTS ∧
    afterFirstAcquire.acquires = afterFirstAcquire.listingCalls :=
  sequential_walk_under_one_permit twoFileEnv _
    (Reach.step Reach.init (Step.acquire (initState twoFileEnv) 0 rfl (by decide)))

end PopulateDB
